import Mathlib

/-!
# Chrome Audio Capturer: the Recorder and the capture controller of `background.js`

A shallow embedding of `src/background.js`.

* JavaScript objects are value trees (`Obj`), `extend` is the recursive merge of the source.
* The `Recorder` class is a record of its fields; every method is a function from the
  state before the call to the state after it together with the list of effects the call
  performs on the host (worker messages, audio-graph calls, hook invocations), in order.
  A method that would throw a `TypeError` returns `none`.
* Callbacks the host runs later (audio blocks, worker replies, tab queries) are functions of
  their own, each taking what the host passes in.
-/

namespace Capturer

/-! ## JavaScript values -/

/-- Values whose `typeof` is not "object": `undefined`, booleans, numbers and strings.
Numbers are exact rationals; on integers and on exact quotients they agree with the
doubles of JavaScript. -/
inductive Prim where
  | undefined
  | bool (b : Bool)
  | num (q : ℚ)
  | str (s : String)
  deriving DecidableEq

/-- A property name of a plain object. The name `__proto__` is left out: an assignment
`target["__proto__"] = v` on a plain object runs the accessor of `Object.prototype`
(it replaces the prototype or does nothing) and stores no property, so `extend` on a
patch with that key is not a merge of own properties. -/
abbrev Key := { s : String // s ≠ "__proto__" }

namespace Key

/-- The option key `timeLimit`. -/
def timeLimit : Key := ⟨"timeLimit", by decide⟩

/-- The option key `encodeAfterRecord`. -/
def encodeAfterRecord : Key := ⟨"encodeAfterRecord", by decide⟩

/-- The option key `progressInterval`. -/
def progressInterval : Key := ⟨"progressInterval", by decide⟩

/-- The option key `bufferSize`. -/
def bufferSize : Key := ⟨"bufferSize", by decide⟩

/-- The option key `wav`. -/
def wav : Key := ⟨"wav", by decide⟩

/-- The option key `mp3`. -/
def mp3 : Key := ⟨"mp3", by decide⟩

/-- The option key `mimeType`. -/
def mimeType : Key := ⟨"mimeType", by decide⟩

/-- The option key `bitRate`. -/
def bitRate : Key := ⟨"bitRate", by decide⟩

end Key

/-- A plain object: its own enumerable properties in `for ... in` order. A property holds a
primitive, `null`, or a nested plain object. -/
inductive Obj where
  | empty
  | prim (key : Key) (val : Prim) (rest : Obj)
  | null (key : Key) (rest : Obj)
  | sub (key : Key) (val : Obj) (rest : Obj)
  deriving DecidableEq

/-- What reading a property yields. `typeof` is "object" for `null` and `obj`. -/
inductive Val where
  | prim (p : Prim)
  | null
  | obj (o : Obj)
  deriving DecidableEq

namespace Obj

/-- Property read `o[key]`; `none` when `o` has no such property. The source then reads
`undefined` or a method inherited from `Object.prototype`: neither has `typeof`
"object". -/
def get : Obj → Key → Option Val
  | .empty, _ => none
  | .prim k v rest, key => if k = key then some (.prim v) else get rest key
  | .null k rest, key => if k = key then some .null else get rest key
  | .sub k v rest, key => if k = key then some (.obj v) else get rest key

/-- One property in front of `rest`. -/
def field (key : Key) (v : Val) (rest : Obj) : Obj :=
  match v with
  | .prim p => .prim key p rest
  | .null => .null key rest
  | .obj o => .sub key o rest

/-- Property write `o[key] = v`: an existing property keeps its place, a new one is added
last. -/
def set : Obj → Key → Val → Obj
  | .empty, key, v => field key v .empty
  | .prim k p rest, key, v => if k = key then field key v rest else .prim k p (set rest key v)
  | .null k rest, key, v => if k = key then field key v rest else .null k (set rest key v)
  | .sub k o rest, key, v => if k = key then field key v rest else .sub k o (set rest key v)

/-- The function `extend(target, src)` of the source with one source object (lines 1-14),
on plain objects whose keys are `Key`s, so that every read and assignment of the loop is
one of an own property: for every key of `src`, a value whose `typeof` is "object" is
merged recursively into `target[key]` when that is itself of type "object" and into a
fresh `{}` otherwise; any other value is assigned. `null` has `typeof` "object": as a source it has no keys, so
`extend(t, null)` returns `t`; as a target it makes the first assignment throw, so
`extend(null, val)` is `null` for a `val` without keys and a `TypeError` (`none`)
otherwise. -/
def extend (target : Obj) : Obj → Option Obj
  | .empty => some target
  | .prim key val rest => extend (target.set key (.prim val)) rest
  | .null key rest =>
      match target.get key with
      | some (.obj t) => extend (target.set key (.obj t)) rest
      | some .null => extend (target.set key .null) rest
      | _ => extend (target.set key (.obj .empty)) rest
  | .sub key val rest =>
      match target.get key with
      | some (.obj t) =>
          match extend t val with
          | some t1 => extend (target.set key (.obj t1)) rest
          | none => none
      | some .null =>
          match val with
          | .empty => extend (target.set key .null) rest
          | _ => none
      | _ =>
          match extend .empty val with
          | some t1 => extend (target.set key (.obj t1)) rest
          | none => none

/-- The object `extend` merges into at `key`: `target[key]` when that is a plain object,
a fresh `{}` when it is missing or a primitive. -/
def base (target : Obj) (key : Key) : Obj :=
  match target.get key with
  | some (.obj t) => t
  | _ => .empty

/-- No property of the object, at any depth, holds `null`. -/
def noNull : Obj → Bool
  | .empty => true
  | .prim _ _ rest => noNull rest
  | .null _ _ => false
  | .sub _ val rest => noNull val && noNull rest

/-- The keys of an object are pairwise distinct, at every depth: a real JavaScript object. -/
def distinctKeys : Obj → Bool
  | .empty => true
  | .prim key _ rest => (rest.get key).isNone && distinctKeys rest
  | .null key rest => (rest.get key).isNone && distinctKeys rest
  | .sub key val rest => (rest.get key).isNone && distinctKeys val && distinctKeys rest

end Obj

/-- The value at a key path: `v[k1][k2]...`; `none` when a property on the way is missing
or is not an object. -/
def Val.lookup : Val → List Key → Option Val
  | v, [] => some v
  | .obj o, k :: ks =>
      match o.get k with
      | some v => Val.lookup v ks
      | none => none
  | _, _ :: _ => none

/-- The object found at a key path of `o`, and the empty object when the path does not
lead to an object: what `extend` merges into along that path. -/
def Obj.objAt (o : Obj) (ks : List Key) : Obj :=
  match (Val.obj o).lookup ks with
  | some (.obj x) => x
  | _ => .empty

/-- Truthiness of a property read, for the conditions of the source. -/
def truthy : Option Val → Bool
  | none => false
  | some (.prim .undefined) => false
  | some (.prim (.bool b)) => b
  | some (.prim (.num q)) => decide (q ≠ 0)
  | some (.prim (.str s)) => decide (s ≠ "")
  | some .null => false
  | some (.obj _) => true

/-! ## Configuration constants -/

/-- The table `WORKER_FILE` (lines 16-19). -/
def WORKER_FILE : String → Option String
  | "wav" => some "WavWorker.js"
  | "mp3" => some "Mp3Worker.js"
  | _ => none

/-- The runtime options of `CONFIGS` (lines 28-42). -/
def CONFIGS_options : Obj :=
  .prim Key.timeLimit (.num 1200) <|
  .prim Key.encodeAfterRecord (.bool true) <|
  .prim Key.progressInterval (.num 1000) <|
  .prim Key.bufferSize .undefined <|
  .sub Key.wav (.prim Key.mimeType (.str "audio/wav") .empty) <|
  .sub Key.mp3 (.prim Key.mimeType (.str "audio/mpeg") (.prim Key.bitRate (.num 192) .empty)) .empty

/-- The field `workerDir` of `CONFIGS`. -/
def CONFIGS_workerDir : String := "/workers/"

/-- The field `numChannels` of `CONFIGS`. -/
def CONFIGS_numChannels : Nat := 2

/-- The field `encoding` of `CONFIGS`. -/
def CONFIGS_encoding : String := "wav"

/-! ## Worker protocol and effects -/

/-- Identity of a `Worker` object created by `new Worker(...)`. -/
abbrev WorkerId := Nat

/-- The samples of one channel of one audio block. -/
abbrev ChannelData := List ℚ

/-- An encoded artifact. -/
abbrev Blob := List Nat

/-- Messages the Recorder posts to its worker. -/
inductive Command where
  | init (sampleRate : Nat) (numChannels : Nat) (options : Obj)
  | options (options : Obj)
  | start (bufferSize : Nat)
  | record (buffer : List ChannelData)
  | cancel
  | finish
  deriving DecidableEq

/-- Messages a worker sends back; `other` is any tag the `switch` of `onmessage` ignores. -/
inductive Event where
  | loaded
  | timeout
  | progress (progress : ℚ)
  | complete (blob : Blob)
  | other (command : String)
  deriving DecidableEq

/-- What a Recorder method does to the outside, one constructor per host call or hook. -/
inductive Effect where
  | createGain
  | sourceConnect
  | terminate (w : WorkerId)
  | newWorker (w : WorkerId) (script : String)
  | post (w : WorkerId) (c : Command)
  | createScriptProcessor (bufferSize : Option Val) (inputs outputs : Nat)
  | inputConnect
  | processorConnect
  | inputDisconnect
  | processorDisconnect
  | onEncoderLoading (encoding : String)
  | onEncoderLoaded (encoding : String)
  | onTimeout
  | onEncodingProgress (progress : ℚ)
  | onEncodingCanceled
  | onComplete (blob : Blob)
  deriving DecidableEq

/-- The messages posted to workers by a run, in order, each with the worker it went to. -/
def posts : List Effect → List (WorkerId × Command)
  | [] => []
  | .post w c :: es => (w, c) :: posts es
  | _ :: es => posts es

/-- The blobs carried by the `complete` events of a list of worker replies. -/
def blobs : List Event → List Blob
  | [] => []
  | .complete b :: es => b :: blobs es
  | _ :: es => blobs es

/-- The blobs the `onComplete` hook was invoked with, in order. -/
def completions : List Effect → List Blob
  | [] => []
  | .onComplete b :: es => b :: completions es
  | _ :: es => completions es

/-- The script processors (audio taps) created by a run. -/
def taps : List Effect → Nat
  | [] => 0
  | .createScriptProcessor _ _ _ :: es => taps es + 1
  | _ :: es => taps es

/-! ## The Recorder -/

/-- The script processor node held in `this.processor`, with what its `onaudioprocess`
closure captured when `startRecording` ran. -/
structure Processor where
  bufferSize : Nat
  numChannels : Nat
  worker : WorkerId
  deriving DecidableEq

/-- The fields of a `Recorder` instance. `worker` and `processor` are `none` when the
JavaScript field is `undefined`. -/
structure Recorder where
  workerDir : String
  numChannels : Nat
  encoding : String
  options : Obj
  sampleRate : Nat
  buffer : List ChannelData
  worker : Option WorkerId
  processor : Option Processor
  startTime : Option Nat
  deriving DecidableEq

/-- The optional second argument of the constructor, with the keys of `CONFIGS`. -/
structure Configs where
  workerDir : Option String
  numChannels : Option Nat
  encoding : Option String
  options : Option Obj

namespace Recorder

/-- The method `isRecording` (lines 58-60). -/
def isRecording (r : Recorder) : Bool := r.processor.isSome

/-- The script path `this.workerDir + WORKER_FILE[this.encoding]`. -/
def workerScript (r : Recorder) : String :=
  r.workerDir ++ (WORKER_FILE r.encoding).getD "undefined"

/-- The method `initWorker` (lines 125-155); `fresh` is the worker `new Worker` returns. -/
def initWorker (r : Recorder) (fresh : WorkerId) : Recorder × List Effect :=
  ({ r with worker := some fresh },
   (match r.worker with
    | some w => [Effect.terminate w]
    | none => []) ++
   [.onEncoderLoading r.encoding,
    .newWorker fresh r.workerScript,
    .post fresh (.init r.sampleRate r.numChannels r.options)])

/-- The handler `worker.onmessage` installed by `initWorker` (lines 131-146). -/
def onmessage (r : Recorder) : Event → List Effect
  | .loaded => [.onEncoderLoaded r.encoding]
  | .timeout => [.onTimeout]
  | .progress p => [.onEncodingProgress p]
  | .complete blob => [.onComplete blob]
  | .other _ => []

/-- The field `this.options` after `extend(this, CONFIGS, configs)` (line 48): the options
of `CONFIGS` merged into a fresh object, then the options of `configs`, when it has
them, merged into that. -/
def initialOptions (options : Option Obj) : Option Obj :=
  match Obj.extend .empty CONFIGS_options with
  | none => none
  | some o0 =>
    match options with
    | none => some o0
    | some p => Obj.extend o0 p

/-- The constructor (lines 47-56): `extend(this, CONFIGS, configs)`, then the gain node and
the worker. `sampleRate` is `source.context.sampleRate`. -/
def new (sampleRate : Nat) (configs : Configs) (fresh : WorkerId) :
    Option (Recorder × List Effect) :=
  match initialOptions configs.options with
  | none => none
  | some o =>
      let r : Recorder :=
        { workerDir := configs.workerDir.getD CONFIGS_workerDir
          numChannels := configs.numChannels.getD CONFIGS_numChannels
          encoding := configs.encoding.getD CONFIGS_encoding
          options := o
          sampleRate := sampleRate
          buffer := []
          worker := none
          processor := none
          startTime := none }
      let (r1, es) := r.initWorker fresh
      some (r1, [.createGain, .sourceConnect] ++ es)

/-- The state `new Recorder(source)` leaves behind: the values of `CONFIGS`, a worker, no
processor. -/
def constructed (sampleRate : Nat) (w : WorkerId) : Recorder :=
  { workerDir := CONFIGS_workerDir
    numChannels := CONFIGS_numChannels
    encoding := CONFIGS_encoding
    options := CONFIGS_options
    sampleRate := sampleRate
    buffer := []
    worker := some w
    processor := none
    startTime := none }

/-- The method `setEncoding` (lines 62-67). -/
def setEncoding (r : Recorder) (encoding : String) (fresh : WorkerId) :
    Recorder × List Effect :=
  if !r.isRecording && r.encoding ≠ encoding then
    initWorker { r with encoding := encoding } fresh
  else (r, [])

/-- The method `setOptions` (lines 69-74). -/
def setOptions (r : Recorder) (options : Obj) : Option (Recorder × List Effect) :=
  if !r.isRecording then
    match Obj.extend r.options options with
    | none => none
    | some o =>
      match r.worker with
      | none => none
      | some w => some ({ r with options := o }, [.post w (.options o)])
  else some (r, [])

/-- The method `startRecording` (lines 76-97). `bufferSize` is the size of the processor
the audio context returns, `now` is `Date.now()`. -/
def startRecording (r : Recorder) (bufferSize now : Nat) : Option (Recorder × List Effect) :=
  if !r.isRecording then
    match r.worker with
    | none => none
    | some w =>
      some ({ r with
                processor := some { bufferSize := bufferSize
                                    numChannels := r.numChannels
                                    worker := w }
                startTime := some now },
            [.createScriptProcessor (r.options.get Key.bufferSize) r.numChannels r.numChannels,
             .inputConnect,
             .processorConnect,
             .post w (.start bufferSize)])
  else some (r, [])

/-- The callback `onaudioprocess` (lines 86-90), run by the host for an audio block while
the processor is attached; `getChannelData` is `event.inputBuffer.getChannelData`. -/
def onaudioprocess (r : Recorder) (getChannelData : Nat → ChannelData) :
    Recorder × List Effect :=
  match r.processor with
  | none => (r, [])
  | some p =>
    let buffer := (List.range p.numChannels).map getChannelData ++ r.buffer.drop p.numChannels
    ({ r with buffer := buffer }, [.post p.worker (.record buffer)])

/-- The method `cancelRecording` (lines 99-106). -/
def cancelRecording (r : Recorder) : Option (Recorder × List Effect) :=
  if r.isRecording then
    match r.worker with
    | none => none
    | some w =>
      some ({ r with processor := none },
            [.inputDisconnect, .processorDisconnect, .post w .cancel])
  else some (r, [])

/-- The method `finishRecording` (lines 108-115). -/
def finishRecording (r : Recorder) : Option (Recorder × List Effect) :=
  if r.isRecording then
    match r.worker with
    | none => none
    | some w =>
      some ({ r with processor := none },
            [.inputDisconnect, .processorDisconnect, .post w .finish])
  else some (r, [])

/-- The method `cancelEncoding` (lines 117-123). -/
def cancelEncoding (r : Recorder) (fresh : WorkerId) : Recorder × List Effect :=
  if truthy (r.options.get Key.encodeAfterRecord) then
    if !r.isRecording then
      let (r1, es) := r.initWorker fresh
      (r1, .onEncodingCanceled :: es)
    else (r, [])
  else (r, [])

/-- The audio callback run once per delivered block, in delivery order. -/
def feed (r : Recorder) : List (Nat → ChannelData) → Recorder × List Effect
  | [] => (r, [])
  | b :: bs =>
    let (r1, e1) := r.onaudioprocess b
    let (r2, e2) := feed r1 bs
    (r2, e1 ++ e2)

end Recorder

/-- Scenario 1 as a run: construct with `configs`, start, receive `blocks`, finish. -/
def scenario1 (sampleRate : Nat) (configs : Configs) (w : WorkerId) (bufferSize now : Nat)
    (blocks : List (Nat → ChannelData)) : Option (Recorder × List Effect) :=
  match Recorder.new sampleRate configs w with
  | none => none
  | some (r0, e0) =>
    match r0.startRecording bufferSize now with
    | none => none
    | some (r1, e1) =>
      let (r2, e2) := r1.feed blocks
      match r2.finishRecording with
      | none => none
      | some (r3, e3) => some (r3, e0 ++ e1 ++ e2 ++ e3)

/-- The hooks fired on Recorder `r` when a worker that answers a command `c` with the events
`respond c` has received the messages posted by `effs`. -/
def replies (respond : Command → List Event) (r : Recorder) (effs : List Effect) :
    List Effect :=
  (posts effs).flatMap fun m => (respond m.2).flatMap r.onmessage

/-- A worker that answers `init` with `loaded`, `finish` with one `complete` carrying
`blob`, and nothing else. -/
def sampleWorker (blob : Blob) : Command → List Event
  | .init _ _ _ => [.loaded]
  | .finish => [.complete blob]
  | _ => []

/-- A Recorder in the middle of a recording: the constructed Recorder after
`startRecording` with a processor of 4096 frames. -/
def recordingRecorder : Recorder :=
  { Recorder.constructed 48000 1 with
    processor := some { bufferSize := 4096, numChannels := 2, worker := 1 }
    startTime := some 0 }

/-! ## The capture controller -/

/-- The active tab as `chrome.tabs.query` reports it. -/
structure Tab where
  id : Nat
  url : String

/-- The persisted preferences `chrome.storage.sync.get` returns (lines 244-249). -/
structure Prefs where
  maxTime : Int
  muteTab : Bool
  format : String
  quality : Int

/-- The session registry `sessionStorage`: tab id to the `Date.now()` stored at session
start. Storage keeps both as strings; the string of a time is never empty, so a stored
record is always truthy and the presence test of the source is a test for `some`. -/
abbrev Storage := List (Nat × Nat)

/-- The call `sessionStorage.getItem(key)`. -/
def getItem : Storage → Nat → Option Nat
  | [], _ => none
  | (k, v) :: rest, key => if k = key then some v else getItem rest key

/-- The call `sessionStorage.setItem(key, value)`. -/
def setItem : Storage → Nat → Nat → Storage
  | [], key, value => [(key, value)]
  | (k, v) :: rest, key, value =>
    if k = key then (k, value) :: rest else (k, v) :: setItem rest key value

/-- The call `sessionStorage.removeItem(key)`. -/
def removeItem : Storage → Nat → Storage
  | [], _ => []
  | (k, v) :: rest, key => if k = key then removeItem rest key else (k, v) :: removeItem rest key

/-- What the controller does to the outside. -/
inductive CEffect where
  | tabsCreate (url : String)
  | audioCapture (timeLimit : Int) (muteTab : Bool) (format : String) (quality : Int)
  | captureStarted (tabId : Nat) (startTime : Nat)
  | captureStopped (tabId : Nat)
  | recorder (e : Effect)
  | audioCtxClose
  | trackStop
  | play
  deriving DecidableEq

/-- The test `url.toLowerCase().includes("youtube")` (line 239). Lower-casing is done on
the ASCII letters: no other character lower-cases to a letter of the word searched. -/
def disallowed (url : String) : Bool :=
  decide ("youtube".toList <:+: url.toList.map Char.toLower)

/-- The cap on the `maxTime` preference (lines 250-253). -/
def capTime (maxTime : Int) : Int :=
  if maxTime > 1200000 then 1200000 else maxTime

/-- The body of `startCapture` (lines 237-260) for the active tab `tab`, with the callback
of `chrome.storage.sync.get` that hands the preferences to `audioCapture`. `now1` and
`now2` are the two readings of `Date.now()`. Effects are in the order they happen: the
broadcast is sent before the preferences arrive. -/
def startCapture (store : Storage) (tab : Tab) (now1 now2 : Nat) (prefs : Prefs) :
    Storage × List CEffect :=
  if disallowed tab.url then (store, [.tabsCreate "error.html"])
  else
    match getItem store tab.id with
    | some _ => (store, [])
    | none =>
      (setItem store tab.id now1,
       [.captureStarted tab.id now2,
        .audioCapture (capTime prefs.maxTime) prefs.muteTab prefs.format prefs.quality])

/-- The variables one invocation of the `chrome.tabCapture.capture` callback closes over
(lines 168-176). `timeoutArmed` says that `mediaRecorder.onTimeout` is `stopCapture`
rather than the empty function. -/
structure Capture where
  startTabId : Option Nat
  completeTabID : Option Nat
  audioURL : Option String
  mediaRecorder : Recorder
  format : String
  timeoutArmed : Bool
  deriving DecidableEq

/-- The body of the capture callback of `audioCapture` (lines 167-224). The host supplies
the sample rate of the new audio context, the workers `w1` and `w2` that `new Worker`
returns, the buffer size of the script processor and `Date.now()`. -/
def audioCapture (timeLimit : Int) (muteTab : Bool) (format : String) (quality : Int)
    (sampleRate : Nat) (w1 w2 : WorkerId) (bufferSize now : Nat) :
    Option (Capture × List CEffect) :=
  match Recorder.new sampleRate ⟨none, none, none, none⟩ w1 with
  | none => none
  | some (r0, e0) =>
    let (r1, e1) := r0.setEncoding format w2
    match r1.setOptions (.prim Key.timeLimit (.num ((timeLimit : ℚ) / 100)) .empty) with
    | none => none
    | some (r2, e2) =>
      match (if format = "mp3" then
               r2.setOptions (.sub Key.mp3 (.prim Key.bitRate (.num quality) .empty) .empty)
             else some (r2, [])) with
      | none => none
      | some (r3, e3) =>
        match r3.startRecording bufferSize now with
        | none => none
        | some (r4, e4) =>
          some ({ startTabId := none
                  completeTabID := none
                  audioURL := none
                  mediaRecorder := r4
                  format := format
                  timeoutArmed := true },
                (e0 ++ e1 ++ e2 ++ e3 ++ e4).map CEffect.recorder ++
                  (if muteTab then [] else [.play]))

/-- A capture that is running on tab 7. -/
def sampleCapture : Capture :=
  { startTabId := some 7
    completeTabID := none
    audioURL := none
    mediaRecorder := recordingRecorder
    format := "wav"
    timeoutArmed := true }

/-- The callback of the first `chrome.tabs.query` (line 172): records the start tab. -/
def onStartTab (c : Capture) (tabId : Nat) : Capture :=
  { c with startTabId := some tabId }

/-- The body of `stopCapture` (lines 197-217) once its tab query has answered with the
active tab `endTabId`. `mediaRecorder` is an object from its declaration on, so the
guard is the comparison of the two tab ids. -/
def stopCapture (c : Capture) (store : Storage) (endTabId : Nat) :
    Option (Capture × Storage × List CEffect) :=
  if c.startTabId = some endTabId then
    match c.mediaRecorder.finishRecording with
    | none => none
    | some (r, es) =>
      some ({ c with mediaRecorder := r, timeoutArmed := false },
            removeItem store endTabId,
            es.map CEffect.recorder ++
              [.tabsCreate "complete.html", .audioCtxClose, .trackStop,
               .captureStopped endTabId])
  else some (c, store, [])

/-- The three stop triggers wired in `audioCapture`. -/
inductive Trigger where
  | command (name : String)
  | message (request : String)
  | timeout

/-- A stop trigger arriving while `endTabId` is the active tab: the command listener
(lines 183-187), the message listener (lines 188-192) and the Recorder's `onTimeout`
hook (line 218). -/
def onTrigger (c : Capture) (store : Storage) (t : Trigger) (endTabId : Nat) :
    Option (Capture × Storage × List CEffect) :=
  match t with
  | .command name => if name = "stop" then stopCapture c store endTabId else some (c, store, [])
  | .message request =>
    if request = "stopCapture" then stopCapture c store endTabId else some (c, store, [])
  | .timeout => if c.timeoutArmed then stopCapture c store endTabId else some (c, store, [])

/-- A step of the controller that touches the session registry. -/
inductive Step where
  | start (tab : Tab) (now1 now2 : Nat) (prefs : Prefs)
  | stop (c : Capture) (endTabId : Nat)

/-- The registry after a step. A `stopCapture` that throws does so in `finishRecording`,
before `removeItem` is reached. -/
def Step.apply (store : Storage) : Step → Storage
  | .start tab now1 now2 prefs => (startCapture store tab now1 now2 prefs).1
  | .stop c endTabId =>
    match stopCapture c store endTabId with
    | some (_, store1, _) => store1
    | none => store

/-- The step is a `startCapture` for tab `t` that passes the URL test. -/
def Step.starts (t : Nat) : Step → Bool
  | .start tab _ _ _ => decide (tab.id = t) && !disallowed tab.url
  | .stop _ _ => false

/-- The step is a `stopCapture` that runs its stop sequence for tab `t`. -/
def Step.removes (t : Nat) : Step → Bool
  | .start _ _ _ _ => false
  | .stop c endTabId =>
    decide (c.startTabId = some endTabId) && decide (endTabId = t) &&
      c.mediaRecorder.finishRecording.isSome

/-- The registry after a sequence of steps. -/
def run (store : Storage) (steps : List Step) : Storage :=
  steps.foldl Step.apply store

/-! ## Facts about objects and `extend` -/

namespace Obj

theorem get_field (k key : Key) (v : Val) (rest : Obj) :
    (field k v rest).get key = if k = key then some v else rest.get key := by
  cases v <;> simp [field, get]

theorem get_set_self (o : Obj) (key : Key) (v : Val) : (o.set key v).get key = some v := by
  induction o with
  | empty => simp [set, get_field]
  | prim k p rest ih => by_cases h : k = key <;> simp [set, get_field, get, h, ih]
  | null k rest ih => by_cases h : k = key <;> simp [set, get_field, get, h, ih]
  | sub k o rest _ ih => by_cases h : k = key <;> simp [set, get_field, get, h, ih]

theorem get_set_ne (o : Obj) (key key1 : Key) (v : Val) (h : key ≠ key1) :
    (o.set key v).get key1 = o.get key1 := by
  induction o with
  | empty => simp [set, get_field, get, h]
  | prim k p rest ih =>
    by_cases hk : k = key
    · subst hk; simp [set, get_field, get, h]
    · by_cases hk1 : k = key1
      · subst hk1; simp [set, get, hk]
      · simp [set, get, hk, hk1, ih]
  | null k rest ih =>
    by_cases hk : k = key
    · subst hk; simp [set, get_field, get, h]
    · by_cases hk1 : k = key1
      · subst hk1; simp [set, get, hk]
      · simp [set, get, hk, hk1, ih]
  | sub k o rest _ ih =>
    by_cases hk : k = key
    · subst hk; simp [set, get_field, get, h]
    · by_cases hk1 : k = key1
      · subst hk1; simp [set, get, hk]
      · simp [set, get, hk, hk1, ih]

theorem base_set_ne (o : Obj) (key key1 : Key) (v : Val) (h : key ≠ key1) :
    (o.set key v).base key1 = o.base key1 := by
  simp [base, get_set_ne o key key1 v h]

theorem noNull_get_obj (o : Obj) (key : Key) (t : Obj) (hn : o.noNull = true)
    (hg : o.get key = some (.obj t)) : t.noNull = true := by
  induction o with
  | empty => simp [get] at hg
  | prim k p rest ih =>
    by_cases hk : k = key
    · simp [get, hk] at hg
    · simp [get, hk] at hg; exact ih (by simpa [noNull] using hn) hg
  | null k rest _ => simp [noNull] at hn
  | sub k o rest _ ih =>
    simp only [noNull, Bool.and_eq_true] at hn
    by_cases hk : k = key
    · simp [get, hk] at hg; subst hg; exact hn.1
    · simp [get, hk] at hg; exact ih hn.2 hg

theorem noNull_get_ne_null (o : Obj) (key : Key) (hn : o.noNull = true) :
    o.get key ≠ some .null := by
  induction o with
  | empty => simp [get]
  | prim k p rest ih =>
    by_cases hk : k = key
    · simp [get, hk]
    · simpa [get, hk] using ih (by simpa [noNull] using hn)
  | null k rest _ => simp [noNull] at hn
  | sub k o rest _ ih =>
    simp only [noNull, Bool.and_eq_true] at hn
    by_cases hk : k = key
    · simp [get, hk]
    · simpa [get, hk] using ih hn.2

theorem noNull_base (o : Obj) (key : Key) (hn : o.noNull = true) :
    (o.base key).noNull = true := by
  unfold base
  split
  · next t hg => exact noNull_get_obj o key t hn hg
  · rfl

theorem noNull_set_prim (o : Obj) (key : Key) (p : Prim) (hn : o.noNull = true) :
    (o.set key (.prim p)).noNull = true := by
  induction o with
  | empty => simp [set, field, noNull]
  | prim k q rest ih =>
    have := ih (by simpa [noNull] using hn)
    by_cases hk : k = key <;> simp_all [set, field, noNull]
  | null k rest _ => simp [noNull] at hn
  | sub k o rest _ ih =>
    simp only [noNull, Bool.and_eq_true] at hn
    have := ih hn.2
    by_cases hk : k = key <;> simp_all [set, field, noNull]

theorem noNull_set_obj (o : Obj) (key : Key) (t : Obj) (hn : o.noNull = true)
    (ht : t.noNull = true) : (o.set key (.obj t)).noNull = true := by
  induction o with
  | empty => simp [set, field, noNull, ht]
  | prim k q rest ih =>
    have := ih (by simpa [noNull] using hn)
    by_cases hk : k = key <;> simp_all [set, field, noNull]
  | null k rest _ => simp [noNull] at hn
  | sub k o rest _ ih =>
    simp only [noNull, Bool.and_eq_true] at hn
    have := ih hn.2
    by_cases hk : k = key <;> simp_all [set, field, noNull]

theorem extend_null_eq (t : Obj) (key : Key) (rest : Obj) (hn : t.noNull = true) :
    extend t (.null key rest) = extend (t.set key (.obj (t.base key))) rest := by
  have hne := noNull_get_ne_null t key hn
  cases hg : t.get key with
  | none => simp [extend, base, hg]
  | some v =>
    cases v with
    | prim p => simp [extend, base, hg]
    | null => exact absurd hg hne
    | obj t1 => simp [extend, base, hg]

theorem extend_sub_eq (t : Obj) (key : Key) (val rest : Obj) (hn : t.noNull = true) :
    extend t (.sub key val rest) =
      (extend (t.base key) val).bind fun t1 => extend (t.set key (.obj t1)) rest := by
  have hne := noNull_get_ne_null t key hn
  cases hg : t.get key with
  | none => simp only [extend, base, hg]; cases extend empty val <;> rfl
  | some v =>
    cases v with
    | prim p => simp only [extend, base, hg]; cases extend empty val <;> rfl
    | null => exact absurd hg hne
    | obj t1 => simp only [extend, base, hg]; cases extend t1 val <;> rfl

theorem distinctKeys_get_obj (p : Obj) (key : Key) (ps : Obj) (hd : p.distinctKeys = true)
    (hg : p.get key = some (.obj ps)) : ps.distinctKeys = true := by
  induction p with
  | empty => simp [get] at hg
  | prim k q rest ih =>
    simp only [distinctKeys, Bool.and_eq_true] at hd
    by_cases hk : k = key
    · simp [get, hk] at hg
    · simp [get, hk] at hg; exact ih hd.2 hg
  | null k rest ih =>
    simp only [distinctKeys, Bool.and_eq_true] at hd
    by_cases hk : k = key
    · simp [get, hk] at hg
    · simp [get, hk] at hg; exact ih hd.2 hg
  | sub k o rest _ ih =>
    simp only [distinctKeys, Bool.and_eq_true] at hd
    by_cases hk : k = key
    · simp [get, hk] at hg; subst hg; exact hd.1.2
    · simp [get, hk] at hg; exact ih hd.2 hg

/-- What one pass of `extend` over a patch does to each property of a target without
`null`: it never throws, stores no `null`, leaves the keys the patch lacks, assigns the
primitives of the patch, and merges its objects into `base`. -/
theorem extend_spec (p : Obj) : ∀ t : Obj, t.noNull = true → p.distinctKeys = true →
    ∃ t1, extend t p = some t1 ∧ t1.noNull = true ∧
      (∀ k, p.get k = none → t1.get k = t.get k) ∧
      (∀ k s, p.get k = some (.prim s) → t1.get k = some (.prim s)) ∧
      (∀ k ps, p.get k = some (.obj ps) →
        ∃ ts, extend (t.base k) ps = some ts ∧ t1.get k = some (.obj ts)) ∧
      (∀ k, p.get k = some .null → t1.get k = some (.obj (t.base k))) := by
  induction p with
  | empty =>
    intro t hn _
    exact ⟨t, rfl, hn, fun _ _ => rfl, by simp [get], by simp [get], by simp [get]⟩
  | prim key val rest ih =>
    intro t hn hd
    simp only [distinctKeys, Bool.and_eq_true, Option.isNone_iff_eq_none] at hd
    obtain ⟨t1, he, hn1, hnone, hprim, hobj, hnull⟩ :=
      ih (t.set key (.prim val)) (noNull_set_prim t key val hn) hd.2
    refine ⟨t1, by simpa [extend] using he, hn1, ?_, ?_, ?_, ?_⟩
    · intro k hk
      by_cases hkk : key = k
      · simp [get, hkk] at hk
      · simp only [get, hkk, if_false] at hk
        rw [hnone k hk, get_set_ne t key k _ hkk]
    · intro k s hk
      by_cases hkk : key = k
      · subst hkk
        simp only [get, if_true, Option.some.injEq, Val.prim.injEq] at hk
        subst hk
        rw [hnone key hd.1, get_set_self]
      · simp only [get, hkk, if_false] at hk
        exact hprim k s hk
    · intro k ps hk
      by_cases hkk : key = k
      · simp [get, hkk] at hk
      · simp only [get, hkk, if_false] at hk
        have := hobj k ps hk
        rwa [base_set_ne t key k _ hkk] at this
    · intro k hk
      by_cases hkk : key = k
      · simp [get, hkk] at hk
      · simp only [get, hkk, if_false] at hk
        have := hnull k hk
        rwa [base_set_ne t key k _ hkk] at this
  | null key rest ih =>
    intro t hn hd
    simp only [distinctKeys, Bool.and_eq_true, Option.isNone_iff_eq_none] at hd
    obtain ⟨t1, he, hn1, hnone, hprim, hobj, hnull⟩ :=
      ih (t.set key (.obj (t.base key)))
        (noNull_set_obj t key _ hn (noNull_base t key hn)) hd.2
    refine ⟨t1, by rw [extend_null_eq t key rest hn]; exact he, hn1, ?_, ?_, ?_, ?_⟩
    · intro k hk
      by_cases hkk : key = k
      · simp [get, hkk] at hk
      · simp only [get, hkk, if_false] at hk
        rw [hnone k hk, get_set_ne t key k _ hkk]
    · intro k s hk
      by_cases hkk : key = k
      · simp [get, hkk] at hk
      · simp only [get, hkk, if_false] at hk
        exact hprim k s hk
    · intro k ps hk
      by_cases hkk : key = k
      · simp [get, hkk] at hk
      · simp only [get, hkk, if_false] at hk
        have := hobj k ps hk
        rwa [base_set_ne t key k _ hkk] at this
    · intro k hk
      by_cases hkk : key = k
      · subst hkk
        rw [hnone key hd.1, get_set_self]
      · simp only [get, hkk, if_false] at hk
        have := hnull k hk
        rwa [base_set_ne t key k _ hkk] at this
  | sub key val rest ihv ih =>
    intro t hn hd
    simp only [distinctKeys, Bool.and_eq_true, Option.isNone_iff_eq_none] at hd
    obtain ⟨tv, hev, hnv, -⟩ := ihv (t.base key) (noNull_base t key hn) hd.1.2
    obtain ⟨t1, he, hn1, hnone, hprim, hobj, hnull⟩ :=
      ih (t.set key (.obj tv)) (noNull_set_obj t key _ hn hnv) hd.2
    refine ⟨t1, by rw [extend_sub_eq t key val rest hn, hev]; exact he, hn1, ?_, ?_, ?_, ?_⟩
    · intro k hk
      by_cases hkk : key = k
      · simp [get, hkk] at hk
      · simp only [get, hkk, if_false] at hk
        rw [hnone k hk, get_set_ne t key k _ hkk]
    · intro k s hk
      by_cases hkk : key = k
      · simp [get, hkk] at hk
      · simp only [get, hkk, if_false] at hk
        exact hprim k s hk
    · intro k ps hk
      by_cases hkk : key = k
      · subst hkk
        simp only [get, if_true, Option.some.injEq, Val.obj.injEq] at hk
        subst hk
        exact ⟨tv, hev, by rw [hnone key hd.1.1, get_set_self]⟩
      · simp only [get, hkk, if_false] at hk
        have := hobj k ps hk
        rwa [base_set_ne t key k _ hkk] at this
    · intro k hk
      by_cases hkk : key = k
      · simp [get, hkk] at hk
      · simp only [get, hkk, if_false] at hk
        have := hnull k hk
        rwa [base_set_ne t key k _ hkk] at this

end Obj

theorem lookup_obj_cons (o : Obj) (k : Key) (ks : List Key) :
    (Val.obj o).lookup (k :: ks) = (o.get k).bind fun v => v.lookup ks := by
  simp only [Val.lookup]; cases o.get k <;> rfl

theorem lookup_eq_obj (v : Val) (ks : List Key) (x : Obj)
    (h : v.lookup ks = some (.obj x)) : ∃ o, v = .obj o := by
  cases v with
  | obj o => exact ⟨o, rfl⟩
  | prim p => cases ks <;> simp [Val.lookup] at h
  | null => cases ks <;> simp [Val.lookup] at h

/-- Keys the patch does not mention keep their value, at every depth where both the
options and the patch have an object. -/
theorem extend_frame (ks : List Key) : ∀ (p o o1 : Obj), o.noNull = true →
    p.distinctKeys = true → Obj.extend o p = some o1 →
    ∀ (k : Key) (po oo : Obj), (Val.obj p).lookup ks = some (.obj po) →
      (Val.obj o).lookup ks = some (.obj oo) → po.get k = none →
      (Val.obj o1).lookup (ks ++ [k]) = (Val.obj o).lookup (ks ++ [k]) := by
  induction ks with
  | nil =>
    intro p o o1 hn hd he k po oo hp ho hk
    obtain ⟨t1, he1, -, hnone, -⟩ := Obj.extend_spec p o hn hd
    rw [he] at he1; cases he1
    simp only [Val.lookup, Option.some.injEq, Val.obj.injEq] at hp ho
    subst hp
    simp only [List.nil_append, lookup_obj_cons, hnone k hk]
  | cons k1 ks ih =>
    intro p o o1 hn hd he k po oo hp ho hk
    obtain ⟨t1, he1, -, -, -, hobj, -⟩ := Obj.extend_spec p o hn hd
    rw [he] at he1; cases he1
    rw [lookup_obj_cons] at hp ho
    cases hpg : p.get k1 with
    | none => simp [hpg] at hp
    | some vp =>
      cases hog : o.get k1 with
      | none => simp [hog] at ho
      | some vo =>
        simp only [hpg, hog, Option.bind_some] at hp ho
        obtain ⟨p1, rfl⟩ := lookup_eq_obj vp ks po hp
        obtain ⟨oo1, rfl⟩ := lookup_eq_obj vo ks oo ho
        obtain ⟨ts, hets, hgts⟩ := hobj k1 p1 hpg
        have hb : o.base k1 = oo1 := by simp [Obj.base, hog]
        rw [hb] at hets
        simp only [List.cons_append, lookup_obj_cons, hgts, hog, Option.bind_some]
        exact ih p1 oo1 ts (Obj.noNull_get_obj o k1 oo1 hn hog)
          (Obj.distinctKeys_get_obj p k1 p1 hd hpg) hets k po oo hp ho hk

/-- Every primitive leaf of the patch is the value at its key path after the merge. -/
theorem extend_leaf (ks : List Key) : ∀ (p o o1 : Obj), o.noNull = true →
    p.distinctKeys = true → Obj.extend o p = some o1 →
    ∀ s : Prim, (Val.obj p).lookup ks = some (.prim s) →
      (Val.obj o1).lookup ks = some (.prim s) := by
  induction ks with
  | nil => intro p o o1 _ _ _ s hp; simp [Val.lookup] at hp
  | cons k1 ks ih =>
    intro p o o1 hn hd he s hp
    obtain ⟨t1, he1, -, -, hprim, hobj, -⟩ := Obj.extend_spec p o hn hd
    rw [he] at he1; cases he1
    rw [lookup_obj_cons] at hp ⊢
    cases hpg : p.get k1 with
    | none => simp [hpg] at hp
    | some vp =>
      simp only [hpg, Option.bind_some] at hp
      cases vp with
      | prim q =>
        cases ks with
        | nil =>
          simp only [Val.lookup, Option.bind_some, Option.some.injEq, Val.prim.injEq] at hp
          subst hp
          simp [hprim k1 q hpg, Val.lookup]
        | cons _ _ => simp [Val.lookup] at hp
      | null => cases ks <;> simp [Val.lookup] at hp
      | obj p1 =>
        obtain ⟨ts, hets, hgts⟩ := hobj k1 p1 hpg
        simp only [hgts, Option.bind_some]
        exact ih p1 (o.base k1) ts (Obj.noNull_base o k1 hn)
          (Obj.distinctKeys_get_obj p k1 p1 hd hpg) hets s hp


theorem objAt_cons (o : Obj) (k : Key) (ks : List Key) :
    o.objAt (k :: ks) = (o.base k).objAt ks := by
  unfold Obj.objAt Obj.base
  rw [lookup_obj_cons]
  cases hg : o.get k with
  | none => cases ks <;> simp [Val.lookup, Obj.get]
  | some v =>
    cases v with
    | prim q => cases ks <;> simp [Val.lookup, Obj.get]
    | null => cases ks <;> simp [Val.lookup, Obj.get]
    | obj x => simp

/-- A `null` leaf of the patch is not stored: the object the target had at that key path,
or a fresh empty object, is found there after the merge. -/
theorem extend_null_leaf (ks : List Key) : ∀ (p o o1 : Obj), o.noNull = true →
    p.distinctKeys = true → Obj.extend o p = some o1 →
    (Val.obj p).lookup ks = some Val.null →
    (Val.obj o1).lookup ks = some (.obj (o.objAt ks)) := by
  induction ks with
  | nil => intro p o o1 _ _ _ hp; simp [Val.lookup] at hp
  | cons k1 ks ih =>
    intro p o o1 hn hd he hp
    obtain ⟨t1, he1, -, -, -, hobj, hnull⟩ := Obj.extend_spec p o hn hd
    rw [he] at he1; cases he1
    rw [lookup_obj_cons] at hp ⊢
    rw [objAt_cons]
    cases hpg : p.get k1 with
    | none => simp [hpg] at hp
    | some vp =>
      simp only [hpg, Option.bind_some] at hp
      cases vp with
      | prim q => cases ks <;> simp [Val.lookup] at hp
      | null =>
        cases ks with
        | nil => simp [hnull k1 hpg, Val.lookup, Obj.objAt]
        | cons _ _ => simp [Val.lookup] at hp
      | obj p1 =>
        obtain ⟨ts, hets, hgts⟩ := hobj k1 p1 hpg
        simp only [hgts, Option.bind_some]
        exact ih p1 (o.base k1) ts (Obj.noNull_base o k1 hn)
          (Obj.distinctKeys_get_obj p k1 p1 hd hpg) hets hp

namespace Obj

/-- On a target without `null`, `extend` never throws and stores no `null`, whatever the
patch. -/
theorem extend_total (p : Obj) : ∀ t : Obj, t.noNull = true →
    ∃ t1, extend t p = some t1 ∧ t1.noNull = true := by
  induction p with
  | empty => intro t hn; exact ⟨t, rfl, hn⟩
  | prim key val rest ih =>
    intro t hn
    obtain ⟨t1, he, hn1⟩ := ih (t.set key (.prim val)) (noNull_set_prim t key val hn)
    exact ⟨t1, by simpa [extend] using he, hn1⟩
  | null key rest ih =>
    intro t hn
    obtain ⟨t1, he, hn1⟩ := ih (t.set key (.obj (t.base key)))
      (noNull_set_obj t key _ hn (noNull_base t key hn))
    exact ⟨t1, by rw [extend_null_eq t key rest hn]; exact he, hn1⟩
  | sub key val rest ihv ih =>
    intro t hn
    obtain ⟨tv, hev, hnv⟩ := ihv (t.base key) (noNull_base t key hn)
    obtain ⟨t1, he, hn1⟩ := ih (t.set key (.obj tv)) (noNull_set_obj t key _ hn hnv)
    exact ⟨t1, by rw [extend_sub_eq t key val rest hn, hev]; exact he, hn1⟩

end Obj

theorem extend_defaults : Obj.extend .empty CONFIGS_options = some CONFIGS_options := by
  decide

theorem noNull_defaults : CONFIGS_options.noNull = true := by decide

/-- The constructor never throws on the merge of its options, and the options it leaves
hold no `null`. -/
theorem initialOptions_total (opts : Option Obj) :
    ∃ o, Recorder.initialOptions opts = some o ∧ o.noNull = true := by
  cases opts with
  | none => exact ⟨CONFIGS_options, by simp [Recorder.initialOptions, extend_defaults],
      noNull_defaults⟩
  | some p =>
    obtain ⟨o, ho, hn⟩ := Obj.extend_total p CONFIGS_options noNull_defaults
    exact ⟨o, by simp [Recorder.initialOptions, extend_defaults, ho], hn⟩

/-! ## Facts about the Recorder -/

theorem posts_append (a b : List Effect) : posts (a ++ b) = posts a ++ posts b := by
  induction a with
  | nil => rfl
  | cons e es ih => cases e <;> simp [posts, ih]

theorem completions_append (a b : List Effect) :
    completions (a ++ b) = completions a ++ completions b := by
  induction a with
  | nil => rfl
  | cons e es ih => cases e <;> simp [completions, ih]

theorem posts_map_post {α : Type} (w : WorkerId) (f : α → Command) (l : List α) :
    posts (l.map fun x => Effect.post w (f x)) = l.map fun x => (w, f x) := by
  induction l with
  | nil => rfl
  | cons c cs ih => simp [posts, ih]

theorem completions_map_post {α : Type} (w : WorkerId) (f : α → Command) (l : List α) :
    completions (l.map fun x => Effect.post w (f x)) = [] := by
  induction l with
  | nil => rfl
  | cons c cs ih => simp [completions, ih]

theorem completions_onmessage (r : Recorder) (evs : List Event) :
    completions (evs.flatMap r.onmessage) = blobs evs := by
  induction evs with
  | nil => rfl
  | cons e es ih =>
    rw [List.flatMap_cons, completions_append, ih]
    cases e <;> rfl

theorem blobs_eq_nil (evs : List Event) (h : ∀ b, Event.complete b ∉ evs) : blobs evs = [] := by
  induction evs with
  | nil => rfl
  | cons e es ih =>
    have hes : ∀ b, Event.complete b ∉ es := fun b hb => h b (List.mem_cons_of_mem _ hb)
    cases e with
    | complete b => exact absurd (List.mem_cons_self _ _) (h b)
    | loaded => simpa [blobs] using ih hes
    | timeout => simpa [blobs] using ih hes
    | progress q => simpa [blobs] using ih hes
    | other c => simpa [blobs] using ih hes

theorem feed_spec (p : Processor) (hp2 : p.numChannels = 2) :
    ∀ (blocks : List (Nat → ChannelData)) (r : Recorder), r.processor = some p →
      r.buffer.length ≤ 2 →
      ∃ buf, buf.length ≤ 2 ∧
        r.feed blocks =
          ({ r with buffer := buf },
           blocks.map fun b => Effect.post p.worker (.record [b 0, b 1])) := by
  intro blocks
  induction blocks with
  | nil => intro r _ hb; exact ⟨r.buffer, hb, rfl⟩
  | cons b bs ih =>
    intro r hp hb
    have hdrop : r.buffer.drop 2 = [] := List.drop_eq_nil_of_le hb
    have hrange : (List.range 2).map b = [b 0, b 1] := rfl
    have hstep : r.onaudioprocess b =
        ({ r with buffer := [b 0, b 1] }, [Effect.post p.worker (.record [b 0, b 1])]) := by
      simp [Recorder.onaudioprocess, hp, hp2, hdrop, hrange]
    obtain ⟨buf, hbuf, hfeed⟩ := ih { r with buffer := [b 0, b 1] } hp (by simp)
    refine ⟨buf, hbuf, ?_⟩
    simp only [Recorder.feed, hstep, hfeed, List.map_cons, List.singleton_append]

/-! ## Properties of the Recorder -/

/-- C1 (Scenario 1 as a message trace): a Recorder constructed with encoding "wav" and 2
channels (given in `configs` or left to the defaults), then started, fed any sequence of
audio blocks and finished, never throws and posts to its worker exactly `init` (sample
rate of the context, 2 channels, the Recorder's options), `start` (the processor's
buffer size), one `record` per block in delivery order carrying the 2 channel buffers of
that block, and `finish`; no hook `onComplete` fires during the run, and a `complete`
reply with a blob invokes `onComplete` exactly once, with that blob. -/
theorem scenario1_message_trace (sampleRate : Nat) (configs : Configs) (w : WorkerId)
    (bufferSize now : Nat) (blocks : List (Nat → ChannelData))
    (hch : configs.numChannels.getD CONFIGS_numChannels = 2)
    (henc : configs.encoding.getD CONFIGS_encoding = "wav") :
    ∃ r effs,
      scenario1 sampleRate configs w bufferSize now blocks = some (r, effs) ∧
      Recorder.initialOptions configs.options = some r.options ∧
      posts effs =
        (w, Command.init sampleRate 2 r.options) :: (w, Command.start bufferSize) ::
          (blocks.map (fun b => (w, Command.record [b 0, b 1])) ++ [(w, Command.finish)]) ∧
      r.isRecording = false ∧
      completions effs = [] ∧
      ∀ blob, r.onmessage (.complete blob) = [.onComplete blob] := by
  obtain ⟨o, ho⟩ := initialOptions_total configs.options
  obtain ⟨buf, -, hfeed⟩ := feed_spec ⟨bufferSize, 2, w⟩ rfl blocks
    { workerDir := configs.workerDir.getD CONFIGS_workerDir
      numChannels := 2
      encoding := "wav"
      options := o
      sampleRate := sampleRate
      buffer := []
      worker := some w
      processor := some ⟨bufferSize, 2, w⟩
      startTime := some now } rfl (by simp)
  refine ⟨{ workerDir := configs.workerDir.getD CONFIGS_workerDir
            numChannels := 2
            encoding := "wav"
            options := o
            sampleRate := sampleRate
            buffer := buf
            worker := some w
            processor := none
            startTime := some now },
          [.createGain, .sourceConnect, .onEncoderLoading "wav",
            .newWorker w (configs.workerDir.getD CONFIGS_workerDir ++ "WavWorker.js"),
            .post w (.init sampleRate 2 o)] ++
          [.createScriptProcessor (o.get Key.bufferSize) 2 2, .inputConnect,
            .processorConnect, .post w (.start bufferSize)] ++
          (blocks.map fun b => Effect.post w (.record [b 0, b 1])) ++
          [.inputDisconnect, .processorDisconnect, .post w .finish],
          ?_, ho.1, ?_, rfl, ?_, fun _ => rfl⟩
  · simp only [scenario1, Recorder.new, ho.1, hch, henc, Recorder.initWorker,
      Recorder.startRecording, Recorder.isRecording, Option.isSome_none,
      Bool.not_false, if_true, hfeed, Recorder.finishRecording, Option.isSome_some]
    rfl
  · simp [posts, posts_append,
      posts_map_post w (fun b : Nat → ChannelData => Command.record [b 0, b 1])]
  · simp [completions, completions_append,
      completions_map_post w (fun b : Nat → ChannelData => Command.record [b 0, b 1])]

/-- C2 (cancel never completes): on a recording Recorder `cancelRecording` posts exactly
one message, `cancel`, and no `finish`, leaves the Recorder idle and invokes no
`onComplete`; the hook `onComplete` is invoked by `onmessage` for a `complete` event and
for no other; so with a worker that emits `complete` only in answer to `finish`, and
exactly one in answer to it, a cancelled cycle fires no `onComplete`, whereas
`finishRecording` posts exactly one `finish` and its cycle fires exactly one. -/
theorem cancel_never_completes (r : Recorder) (p : Processor) (w : WorkerId)
    (respond : Command → List Event) (blob : Blob)
    (hp : r.processor = some p) (hw : r.worker = some w)
    (hOnly : ∀ c b, Event.complete b ∈ respond c → c = Command.finish)
    (hOne : blobs (respond Command.finish) = [blob]) :
    (∃ r1 es, r.cancelRecording = some (r1, es) ∧
        r1 = { r with processor := none } ∧
        posts es = [(w, Command.cancel)] ∧
        r1.isRecording = false ∧
        completions es = [] ∧
        completions (replies respond r1 es) = []) ∧
    (∀ (r0 : Recorder) (e : Event) (b : Blob),
        Effect.onComplete b ∈ r0.onmessage e ↔ e = Event.complete b) ∧
    (∃ r1 es, r.finishRecording = some (r1, es) ∧
        r1 = { r with processor := none } ∧
        posts es = [(w, Command.finish)] ∧
        r1.isRecording = false ∧
        completions es = [] ∧
        completions (replies respond r1 es) = [blob]) := by
  have hcancel : blobs (respond Command.cancel) = [] :=
    blobs_eq_nil _ fun b hb => by cases hOnly _ b hb
  have hc : r.cancelRecording = some ({ r with processor := none },
      [.inputDisconnect, .processorDisconnect, .post w .cancel]) := by
    simp [Recorder.cancelRecording, Recorder.isRecording, hp, hw]
  have hf : r.finishRecording = some ({ r with processor := none },
      [.inputDisconnect, .processorDisconnect, .post w .finish]) := by
    simp [Recorder.finishRecording, Recorder.isRecording, hp, hw]
  refine ⟨⟨_, _, hc, rfl, rfl, rfl, rfl, ?_⟩, ?_, ⟨_, _, hf, rfl, rfl, rfl, rfl, ?_⟩⟩
  · simp [replies, posts, completions_onmessage, hcancel]
  · intro r0 e b
    cases e <;> simp [Recorder.onmessage, eq_comm]
  · simp [replies, posts, completions_onmessage, hOne]

/-- C3 (calls while recording are no-ops): in every state with `isRecording()` true, each of
`setEncoding(c)`, `setOptions(p)` and `startRecording()` returns the state unchanged
and performs no effect, so posts nothing; and `startRecording()` on an idle Recorder
followed at once by `startRecording()` creates exactly one script processor and posts
exactly one message, the `start`. -/
theorem recording_calls_are_noops (r : Recorder) (h : r.isRecording = true) (c : String)
    (p : Obj) (fresh : WorkerId) (bufferSize now : Nat) :
    r.setEncoding c fresh = (r, []) ∧
    r.setOptions p = some (r, []) ∧
    r.startRecording bufferSize now = some (r, []) ∧
    ∀ (r0 : Recorder) (w : WorkerId) (size0 now0 : Nat),
      r0.isRecording = false → r0.worker = some w →
      ∃ r1 e1, r0.startRecording size0 now0 = some (r1, e1) ∧
        r1.startRecording bufferSize now = some (r1, []) ∧
        taps (e1 ++ []) = 1 ∧
        posts (e1 ++ []) = [(w, Command.start size0)] := by
  refine ⟨by simp [Recorder.setEncoding, h], by simp [Recorder.setOptions, h],
    by simp [Recorder.startRecording, h], ?_⟩
  intro r0 w size0 now0 h0 hw
  have hs : r0.startRecording size0 now0 = some
      ({ r0 with processor := some ⟨size0, r0.numChannels, w⟩, startTime := some now0 },
       [.createScriptProcessor (r0.options.get Key.bufferSize) r0.numChannels r0.numChannels,
        .inputConnect, .processorConnect, .post w (.start size0)]) := by
    simp [Recorder.startRecording, h0, hw]
  refine ⟨_, _, hs, ?_, rfl, rfl⟩
  simp [Recorder.startRecording, Recorder.isRecording]

/-- C5 (Scenario 2): `setEncoding(c)` is a no-op whenever the current encoding is `c`; after
`setEncoding(c)` a second `setEncoding(c)` returns the state unchanged and performs no
effect (no worker terminated, no `onEncoderLoading`, no new worker, no `init`); and on
an idle Recorder with another encoding it sets the encoding to `c` and runs
`initWorker`: the old worker is terminated, `onEncoderLoading` fires, a new worker is
created and sent `init`. -/
theorem setEncoding_same_codec (r : Recorder) (c : String) (w1 w2 : WorkerId) :
    (r.encoding = c → r.setEncoding c w2 = (r, [])) ∧
    (r.setEncoding c w1).1.setEncoding c w2 = ((r.setEncoding c w1).1, []) ∧
    (r.isRecording = false → r.encoding ≠ c →
      r.setEncoding c w1 = Recorder.initWorker { r with encoding := c } w1 ∧
      (r.setEncoding c w1).1 = { r with encoding := c, worker := some w1 } ∧
      (r.setEncoding c w1).2 =
        (match r.worker with
          | some w => [Effect.terminate w]
          | none => []) ++
        [.onEncoderLoading c,
         .newWorker w1 (r.workerDir ++ (WORKER_FILE c).getD "undefined"),
         .post w1 (.init r.sampleRate r.numChannels r.options)]) := by
  refine ⟨fun h => by simp [Recorder.setEncoding, h], ?_, fun h hne => ?_⟩
  · by_cases hrec : r.isRecording = true
    · simp [Recorder.setEncoding, hrec]
    · by_cases he : r.encoding = c
      · simp [Recorder.setEncoding, he]
      · simp [Recorder.setEncoding, hrec, he, Recorder.initWorker]
  · simp [Recorder.setEncoding, h, hne, Recorder.initWorker, Recorder.workerScript]

/-- C4 counterexample: a `null` leaf of the patch is not the value found at its key path
afterwards. On the constructed Recorder, `setOptions` with the patch `timeLimit: null`
stores an empty object at `timeLimit`. -/
theorem setOptions_null_leaf_counterexample :
    (Val.obj (.null Key.timeLimit .empty)).lookup [Key.timeLimit] = some Val.null ∧
    (Recorder.constructed 48000 1).setOptions (.null Key.timeLimit .empty) =
      some ({ Recorder.constructed 48000 1 with
                options := CONFIGS_options.set Key.timeLimit (.obj .empty) },
            [.post 1 (.options (CONFIGS_options.set Key.timeLimit (.obj .empty)))]) ∧
    (Val.obj (CONFIGS_options.set Key.timeLimit (.obj .empty))).lookup [Key.timeLimit] =
      some (Val.obj .empty) ∧
    (Val.obj (CONFIGS_options.set Key.timeLimit (.obj .empty))).lookup [Key.timeLimit] ≠
      (Val.obj (.null Key.timeLimit .empty)).lookup [Key.timeLimit] := by
  refine ⟨by decide, by decide, by decide, by decide⟩

/-- C4 as amended (deep merge of `setOptions`): on an idle Recorder whose options hold no
`null`, `setOptions(p)` with a patch of distinct keys, none of them named `__proto__`,
never throws; the options become `extend(options, p)` and still hold no `null`; every
key the patch does not mention, at the top level and inside every sub-object that both
the options and the patch have, keeps its prior value; every leaf of the patch that is
`undefined`, a boolean, a number or a string is the value at its key path afterwards;
a `null` leaf is not stored: the object the options had at its key path, or an empty
object, is found there; and the one message posted is `options` with the merged
options. -/
theorem setOptions_deep_merge (r : Recorder) (p : Obj) (w : WorkerId)
    (hidle : r.isRecording = false) (hw : r.worker = some w)
    (hn : r.options.noNull = true) (hd : p.distinctKeys = true) :
    ∃ o1, r.setOptions p = some ({ r with options := o1 }, [.post w (.options o1)]) ∧
      Obj.extend r.options p = some o1 ∧
      o1.noNull = true ∧
      (∀ (ks : List Key) (k : Key) (po oo : Obj),
        (Val.obj p).lookup ks = some (.obj po) →
        (Val.obj r.options).lookup ks = some (.obj oo) →
        po.get k = none →
        (Val.obj o1).lookup (ks ++ [k]) = (Val.obj r.options).lookup (ks ++ [k])) ∧
      (∀ (ks : List Key) (s : Prim),
        (Val.obj p).lookup ks = some (.prim s) →
        (Val.obj o1).lookup ks = some (.prim s)) ∧
      (∀ ks : List Key,
        (Val.obj p).lookup ks = some Val.null →
        (Val.obj o1).lookup ks = some (.obj (r.options.objAt ks))) := by
  obtain ⟨o1, he, hn1, -⟩ := Obj.extend_spec p r.options hn hd
  refine ⟨o1, by simp [Recorder.setOptions, hidle, he, hw], he, hn1, ?_, ?_, ?_⟩
  · intro ks k po oo hp ho hk
    exact extend_frame ks p r.options o1 hn hd he k po oo hp ho hk
  · intro ks s hp
    exact extend_leaf ks p r.options o1 hn hd he s hp
  · intro ks hp
    exact extend_null_leaf ks p r.options o1 hn hd he hp

/-- The example of C4 with a `null` leaf beside it: the patch
`mp3: (bitRate: 128), wav: null` on the defaults. -/
theorem setOptions_deep_merge_witness :
    ∃ o1, (Recorder.constructed 48000 1).setOptions
        (.sub Key.mp3 (.prim Key.bitRate (.num 128) .empty) (.null Key.wav .empty)) =
          some ({ Recorder.constructed 48000 1 with options := o1 },
                [.post 1 (.options o1)]) ∧
      Obj.extend (Recorder.constructed 48000 1).options
        (.sub Key.mp3 (.prim Key.bitRate (.num 128) .empty) (.null Key.wav .empty))
          = some o1 ∧
      o1.noNull = true ∧
      (∀ (ks : List Key) (k : Key) (po oo : Obj),
        (Val.obj (.sub Key.mp3 (.prim Key.bitRate (.num 128) .empty)
            (.null Key.wav .empty))).lookup ks = some (.obj po) →
        (Val.obj (Recorder.constructed 48000 1).options).lookup ks = some (.obj oo) →
        po.get k = none →
        (Val.obj o1).lookup (ks ++ [k]) =
          (Val.obj (Recorder.constructed 48000 1).options).lookup (ks ++ [k])) ∧
      (∀ (ks : List Key) (s : Prim),
        (Val.obj (.sub Key.mp3 (.prim Key.bitRate (.num 128) .empty)
            (.null Key.wav .empty))).lookup ks = some (.prim s) →
        (Val.obj o1).lookup ks = some (.prim s)) ∧
      (∀ ks : List Key,
        (Val.obj (.sub Key.mp3 (.prim Key.bitRate (.num 128) .empty)
            (.null Key.wav .empty))).lookup ks = some Val.null →
        (Val.obj o1).lookup ks =
          some (.obj ((Recorder.constructed 48000 1).options.objAt ks))) :=
  setOptions_deep_merge (Recorder.constructed 48000 1)
    (.sub Key.mp3 (.prim Key.bitRate (.num 128) .empty) (.null Key.wav .empty)) 1 rfl rfl
    (by decide) (by decide)

/-- The patch of the example, evaluated: `timeLimit`, `wav.mimeType` and `mp3.mimeType`
keep their values and `mp3.bitRate` becomes 128. -/
theorem setOptions_bitRate_example :
    (Recorder.constructed 48000 1).setOptions
        (.sub Key.mp3 (.prim Key.bitRate (.num 128) .empty) .empty) =
      some ({ Recorder.constructed 48000 1 with
                options := CONFIGS_options.set Key.mp3
                  (.obj (.prim Key.mimeType (.str "audio/mpeg")
                    (.prim Key.bitRate (.num 128) .empty))) },
            [.post 1 (.options (CONFIGS_options.set Key.mp3
                  (.obj (.prim Key.mimeType (.str "audio/mpeg")
                    (.prim Key.bitRate (.num 128) .empty)))))]) ∧
    (Val.obj (CONFIGS_options.set Key.mp3
        (.obj (.prim Key.mimeType (.str "audio/mpeg")
          (.prim Key.bitRate (.num 128) .empty))))).lookup [Key.timeLimit] =
      some (.prim (.num 1200)) ∧
    (Val.obj (CONFIGS_options.set Key.mp3
        (.obj (.prim Key.mimeType (.str "audio/mpeg")
          (.prim Key.bitRate (.num 128) .empty))))).lookup [Key.wav, Key.mimeType] =
      some (.prim (.str "audio/wav")) ∧
    (Val.obj (CONFIGS_options.set Key.mp3
        (.obj (.prim Key.mimeType (.str "audio/mpeg")
          (.prim Key.bitRate (.num 128) .empty))))).lookup [Key.mp3, Key.mimeType] =
      some (.prim (.str "audio/mpeg")) ∧
    (Val.obj (CONFIGS_options.set Key.mp3
        (.obj (.prim Key.mimeType (.str "audio/mpeg")
          (.prim Key.bitRate (.num 128) .empty))))).lookup [Key.mp3, Key.bitRate] =
      some (.prim (.num 128)) := by
  refine ⟨by decide, by decide, by decide, by decide, by decide⟩

/-! ## Facts about the session registry -/

theorem getItem_setItem_self (s : Storage) (k v : Nat) : getItem (setItem s k v) k = some v := by
  induction s with
  | nil => simp [setItem, getItem]
  | cons a rest ih =>
    obtain ⟨k1, v1⟩ := a
    by_cases h : k1 = k <;> simp [setItem, getItem, h, ih]

theorem getItem_setItem_ne (s : Storage) (k k1 v : Nat) (h : k ≠ k1) :
    getItem (setItem s k v) k1 = getItem s k1 := by
  induction s with
  | nil => simp [setItem, getItem, h]
  | cons a rest ih =>
    obtain ⟨k2, v2⟩ := a
    by_cases h2 : k2 = k
    · subst h2; simp [setItem, getItem, h]
    · by_cases h3 : k2 = k1
      · subst h3; simp [setItem, getItem, h2]
      · simp [setItem, getItem, h2, h3, ih]

theorem getItem_removeItem_self (s : Storage) (k : Nat) : getItem (removeItem s k) k = none := by
  induction s with
  | nil => rfl
  | cons a rest ih =>
    obtain ⟨k1, v1⟩ := a
    by_cases h : k1 = k <;> simp [removeItem, getItem, h, ih]

theorem getItem_removeItem_ne (s : Storage) (k k1 : Nat) (h : k ≠ k1) :
    getItem (removeItem s k) k1 = getItem s k1 := by
  induction s with
  | nil => rfl
  | cons a rest ih =>
    obtain ⟨k2, v2⟩ := a
    by_cases h2 : k2 = k
    · subst h2; simp [removeItem, getItem, h, ih]
    · by_cases h3 : k2 = k1
      · subst h3; simp [removeItem, getItem, h2]
      · simp [removeItem, getItem, h2, h3, ih]

theorem mem_keys_setItem (s : Storage) (k v x : Nat) :
    x ∈ (setItem s k v).map Prod.fst ↔ x = k ∨ x ∈ s.map Prod.fst := by
  induction s with
  | nil => simp [setItem]
  | cons a rest ih =>
    obtain ⟨k1, v1⟩ := a
    by_cases h : k1 = k
    · subst h; simp [setItem]
    · simp only [setItem, h, if_false, List.map_cons, List.mem_cons, ih]
      tauto

theorem mem_keys_removeItem (s : Storage) (k x : Nat) :
    x ∈ (removeItem s k).map Prod.fst → x ∈ s.map Prod.fst := by
  induction s with
  | nil => simp [removeItem]
  | cons a rest ih =>
    obtain ⟨k1, v1⟩ := a
    by_cases h : k1 = k
    · simp only [removeItem, h, if_true, List.map_cons, List.mem_cons]
      intro hx; exact Or.inr (ih hx)
    · simp only [removeItem, h, if_false, List.map_cons, List.mem_cons]
      rintro (hx | hx)
      · exact Or.inl hx
      · exact Or.inr (ih hx)

theorem nodup_setItem (s : Storage) (k v : Nat) (h : (s.map Prod.fst).Nodup) :
    ((setItem s k v).map Prod.fst).Nodup := by
  induction s with
  | nil => simp [setItem]
  | cons a rest ih =>
    obtain ⟨k1, v1⟩ := a
    simp only [List.map_cons, List.nodup_cons] at h
    by_cases hk : k1 = k
    · simp only [setItem, hk, if_true, List.map_cons, List.nodup_cons]
      exact ⟨hk ▸ h.1, h.2⟩
    · simp only [setItem, hk, if_false, List.map_cons, List.nodup_cons]
      refine ⟨fun hm => ?_, ih h.2⟩
      rcases (mem_keys_setItem rest k v k1).1 hm with h1 | h1
      · exact hk h1
      · exact h.1 h1

theorem nodup_removeItem (s : Storage) (k : Nat) (h : (s.map Prod.fst).Nodup) :
    ((removeItem s k).map Prod.fst).Nodup := by
  induction s with
  | nil => simp [removeItem]
  | cons a rest ih =>
    obtain ⟨k1, v1⟩ := a
    simp only [List.map_cons, List.nodup_cons] at h
    by_cases hk : k1 = k
    · simp only [removeItem, hk, if_true]; exact ih h.2
    · simp only [removeItem, hk, if_false, List.map_cons, List.nodup_cons]
      exact ⟨fun hm => h.1 (mem_keys_removeItem rest k k1 hm), ih h.2⟩

/-- The registry after `stopCapture`: the record of the active tab is removed when the stop
sequence runs, and nothing changes otherwise. -/
theorem stopCapture_store (c : Capture) (store : Storage) (e : Nat) :
    Step.apply store (.stop c e) =
      if c.startTabId = some e ∧ c.mediaRecorder.finishRecording.isSome = true then
        removeItem store e
      else store := by
  by_cases h : c.startTabId = some e
  · cases hf : c.mediaRecorder.finishRecording with
    | none => simp [Step.apply, stopCapture, h, hf]
    | some x => simp [Step.apply, stopCapture, h, hf]
  · simp [Step.apply, stopCapture, h]

theorem nodup_apply (store : Storage) (s : Step) (h : (store.map Prod.fst).Nodup) :
    ((Step.apply store s).map Prod.fst).Nodup := by
  cases s with
  | start tab now1 now2 prefs =>
    simp only [Step.apply, startCapture]
    split
    · exact h
    · split
      · exact h
      · exact nodup_setItem store tab.id now1 h
  | stop c e =>
    rw [stopCapture_store]
    split
    · exact nodup_removeItem store e h
    · exact h

theorem nodup_run (steps : List Step) : ∀ store : Storage, (store.map Prod.fst).Nodup →
    ((run store steps).map Prod.fst).Nodup := by
  induction steps with
  | nil => intro store h; exact h
  | cons s rest ih => intro store h; exact ih _ (nodup_apply store s h)

/-- What one step does to the record of tab `t`: a start for `t` leaves one, a stop that
runs for `t` leaves none, every other step leaves it as it was. -/
theorem getItem_apply (store : Storage) (s : Step) (t : Nat) :
    (getItem (Step.apply store s) t).isSome =
      if s.starts t = true then true
      else if s.removes t = true then false
      else (getItem store t).isSome := by
  cases s with
  | start tab now1 now2 prefs =>
    simp only [Step.apply, startCapture, Step.starts, Step.removes]
    by_cases hd : disallowed tab.url = true
    · simp [hd]
    · by_cases ht : tab.id = t
      · subst ht
        cases hg : getItem store tab.id with
        | none => simp [hd, hg, getItem_setItem_self]
        | some v => simp [hd, hg]
      · cases hg : getItem store tab.id with
        | none => simp [hd, hg, ht, getItem_setItem_ne store tab.id t now1 ht]
        | some v => simp [hd, hg, ht]
  | stop c e =>
    rw [stopCapture_store]
    simp only [Step.starts, Step.removes]
    by_cases h1 : c.startTabId = some e
    · by_cases h2 : c.mediaRecorder.finishRecording.isSome = true
      · by_cases h3 : e = t
        · subst h3; simp [h1, h2, getItem_removeItem_self]
        · simp [h1, h2, h3, getItem_removeItem_ne store e t h3]
      · simp [h1, h2]
    · simp [h1]

theorem getItem_run_no_removes (t : Nat) (mid : List Step) : ∀ store : Storage,
    (getItem store t).isSome = true → (∀ s ∈ mid, Step.removes t s = false) →
    (getItem (run store mid) t).isSome = true := by
  induction mid with
  | nil => intro store h _; exact h
  | cons s rest ih =>
    intro store h hmid
    refine ih (Step.apply store s) ?_ fun x hx => hmid x (List.mem_cons_of_mem _ hx)
    rw [getItem_apply]
    have := hmid s (List.mem_cons_self _ _)
    simp [this, h]

theorem split_last (l pre post : List Step) (a s : Step) (h : l ++ [a] = pre ++ s :: post) :
    (post = [] ∧ l = pre ∧ a = s) ∨ ∃ post1, post = post1 ++ [a] ∧ l = pre ++ s :: post1 := by
  rcases List.eq_nil_or_concat post with hp | ⟨post1, b, hp⟩
  · subst hp
    have := List.append_inj' h rfl
    simp only [List.cons.injEq, and_true] at this
    exact Or.inl ⟨rfl, this.1, this.2⟩
  · subst hp
    have h1 : l ++ [a] = (pre ++ s :: post1) ++ [b] := by simpa using h
    have := List.append_inj' h1 rfl
    simp only [List.cons.injEq, and_true] at this
    exact Or.inr ⟨post1, by rw [this.2, List.concat_eq_append], this.1⟩

/-- A record for tab `t` exists after a run from the empty registry exactly when the run
has a start for `t` after which no stop ran for `t`. -/
theorem record_iff (t : Nat) (steps : List Step) :
    (getItem (run [] steps) t).isSome = true ↔
      ∃ pre s post, steps = pre ++ s :: post ∧ Step.starts t s = true ∧
        ∀ x ∈ post, Step.removes t x = false := by
  induction steps using List.reverseRecOn with
  | nil => simp [run, getItem]
  | append_singleton l a ih =>
    have hrun : run [] (l ++ [a]) = Step.apply (run [] l) a := by simp [run]
    rw [hrun, getItem_apply]
    by_cases hs : Step.starts t a = true
    · simp only [hs, if_true, true_iff]
      exact ⟨l, a, [], rfl, hs, by simp⟩
    · by_cases hr : Step.removes t a = true
      · simp only [hs, hr, if_true, if_false, Bool.false_eq_true, false_iff]
        rintro ⟨pre, s, post, hsplit, hst, hpost⟩
        rcases split_last l pre post a s hsplit with ⟨-, -, has⟩ | ⟨post1, hp, -⟩
        · subst has; exact hs hst
        · have := hpost a (by simp [hp])
          simp [this] at hr
      · simp only [hs, hr, Bool.false_eq_true, if_false]
        rw [ih]
        constructor
        · rintro ⟨pre, s, post, hsplit, hst, hpost⟩
          refine ⟨pre, s, post ++ [a], by simp [hsplit], hst, ?_⟩
          intro x hx
          rcases List.mem_append.1 hx with hx | hx
          · exact hpost x hx
          · simp only [List.mem_singleton] at hx
            subst hx; simpa using hr
        · rintro ⟨pre, s, post, hsplit, hst, hpost⟩
          rcases split_last l pre post a s hsplit with ⟨-, -, has⟩ | ⟨post1, hp, hl⟩
          · subst has; exact absurd hst hs
          · exact ⟨pre, s, post1, hl, hst, fun x hx => hpost x (by simp [hp, hx])⟩

/-! ## Properties of the capture controller -/

/-- C6 (Scenario 4): the time limit `startCapture` passes to `audioCapture` is the `maxTime`
preference capped at 1,200,000 ms: it is `min(m, 1200000)`, never above 1,200,000, is
1,200,000 for `m = 2,000,000`, is `m` itself for every `m` up to 1,200,000; every call
of `audioCapture` that `startCapture` makes carries it, and an accepted start makes
that call. -/
theorem maxTime_capped (m : Int) (store : Storage) (tab : Tab) (now1 now2 : Nat)
    (muteTab : Bool) (format : String) (quality : Int) :
    capTime m = min m 1200000 ∧
    capTime m ≤ 1200000 ∧
    capTime 2000000 = 1200000 ∧
    (m ≤ 1200000 → capTime m = m) ∧
    (∀ t mu f q, CEffect.audioCapture t mu f q ∈
        (startCapture store tab now1 now2 ⟨m, muteTab, format, quality⟩).2 →
      t = min m 1200000) ∧
    (disallowed tab.url = false → getItem store tab.id = none →
      startCapture store tab now1 now2 ⟨m, muteTab, format, quality⟩ =
        (setItem store tab.id now1,
         [.captureStarted tab.id now2,
          .audioCapture (min m 1200000) muteTab format quality])) := by
  have hcap : capTime m = min m 1200000 := by
    unfold capTime
    split
    · rw [min_eq_right]; omega
    · rw [min_eq_left]; omega
  refine ⟨hcap, ?_, by decide, ?_, ?_, ?_⟩
  · rw [hcap]; exact min_le_right _ _
  · intro h; rw [hcap]; exact min_eq_left h
  · intro t mu f q hmem
    simp only [startCapture] at hmem
    split at hmem
    · simp at hmem
    · split at hmem
      · simp at hmem
      · simp only [List.mem_cons, CEffect.audioCapture.injEq, List.mem_singleton,
          List.not_mem_nil, or_false] at hmem
        rcases hmem with hmem | hmem
        · cases hmem
        · rw [hmem.1, hcap]
  · intro hd hg
    simp [startCapture, hd, hg, hcap]

/-- C8 (Scenario 3, one session per tab): after `startCapture` has run for an allowed tab
`t`, and as long as no stop sequence has run for `t`, a second `startCapture` for `t`
changes nothing and does nothing: the stored start time stays, `audioCapture` is not
called, `captureStarted` is not broadcast. Over every sequence of steps from the empty
registry the registry holds at most one record per tab id, and it holds a record for
`t` exactly when the sequence has a start for `t` after which no stop ran for `t`. -/
theorem one_session_per_tab (t : Nat) (steps : List Step) :
    (∀ (store : Storage) (tab1 tab2 : Tab) (n1 n2 n3 n4 : Nat) (p1 p2 : Prefs)
        (mid : List Step),
      tab1.id = t → tab2.id = t → disallowed tab1.url = false →
      disallowed tab2.url = false →
      (∀ s ∈ mid, Step.removes t s = false) →
      startCapture (run (startCapture store tab1 n1 n2 p1).1 mid) tab2 n3 n4 p2 =
        (run (startCapture store tab1 n1 n2 p1).1 mid, [])) ∧
    ((run [] steps).map Prod.fst).Nodup ∧
    ((getItem (run [] steps) t).isSome = true ↔
      ∃ pre s post, steps = pre ++ s :: post ∧ Step.starts t s = true ∧
        ∀ x ∈ post, Step.removes t x = false) := by
  refine ⟨?_, nodup_run steps [] (by simp), record_iff t steps⟩
  intro store tab1 tab2 n1 n2 n3 n4 p1 p2 mid h1 h2 hd1 hd2 hmid
  have hfirst : (getItem (startCapture store tab1 n1 n2 p1).1 t).isSome = true := by
    have := getItem_apply store (.start tab1 n1 n2 p1) t
    simpa [Step.apply, Step.starts, h1, hd1] using this
  have hsome := getItem_run_no_removes t mid _ hfirst hmid
  obtain ⟨v, hv⟩ := Option.isSome_iff_exists.1 hsome
  generalize run (startCapture store tab1 n1 n2 p1).1 mid = st at hv
  simp [startCapture, hd2, h2, hv]

/-- C9 (Scenario 5, tab-id mismatch guard): for a capture started on tab `s`, a stop
trigger of any kind that arrives while another tab `e` is active changes nothing and
does nothing: the Recorder is untouched (still recording, no `finish` posted), no
results page is opened, the audio context and the track are left alone, the session
record stays and nothing is broadcast. -/
theorem stop_from_other_tab_ignored (c : Capture) (store : Storage) (trigger : Trigger)
    (s e : Nat) (hs : c.startTabId = some s) (hne : e ≠ s) :
    stopCapture c store e = some (c, store, []) ∧
    onTrigger c store trigger e = some (c, store, []) := by
  have h : stopCapture c store e = some (c, store, []) := by
    have : ¬ s = e := fun h => hne h.symm
    simp [stopCapture, hs, this]
  refine ⟨h, ?_⟩
  cases trigger with
  | command name => by_cases hn : name = "stop" <;> simp [onTrigger, hn, h]
  | message request => by_cases hn : request = "stopCapture" <;> simp [onTrigger, hn, h]
  | timeout => cases ha : c.timeoutArmed <;> simp [onTrigger, ha, h]

theorem new_default (sampleRate : Nat) (w : WorkerId) :
    Recorder.new sampleRate ⟨none, none, none, none⟩ w =
      some (Recorder.constructed sampleRate w,
        [.createGain, .sourceConnect, .onEncoderLoading "wav",
         .newWorker w "/workers/WavWorker.js",
         .post w (.init sampleRate 2 CONFIGS_options)]) := by
  simp only [Recorder.new, Recorder.initialOptions, extend_defaults, Recorder.initWorker]
  rfl

theorem get_timeLimit_set (q : ℚ) :
    (CONFIGS_options.set Key.timeLimit (.prim (.num q))).get Key.timeLimit =
      some (.prim (.num q)) := Obj.get_set_self _ _ _

/-- The time limit `audioCapture` sets on its Recorder is its argument divided by 100. -/
theorem audioCapture_timeLimit (t : Int) (muteTab : Bool) (format : String) (quality : Int)
    (sampleRate : Nat) (w1 w2 : WorkerId) (bufferSize now : Nat) :
    ∃ c es, audioCapture t muteTab format quality sampleRate w1 w2 bufferSize now
        = some (c, es) ∧
      c.mediaRecorder.options.get Key.timeLimit = some (.prim (.num ((t : ℚ) / 100))) := by
  have hs : ∀ r : Recorder, r.isRecording = false → r.options = CONFIGS_options →
      ∀ w, r.worker = some w →
      r.setOptions (.prim Key.timeLimit (.num ((t : ℚ) / 100)) .empty) =
        some ({ r with options := CONFIGS_options.set Key.timeLimit (.prim (.num (t / 100))) },
          [.post w (.options (CONFIGS_options.set Key.timeLimit (.prim (.num (t / 100)))))]) := by
    intro r hr ho w hw
    simp [Recorder.setOptions, hr, ho, hw, Obj.extend]
  have hm : ∀ r : Recorder, r.isRecording = false → r.options.noNull = true →
      ∀ w, r.worker = some w →
      ∃ o3, r.setOptions (.sub Key.mp3 (.prim Key.bitRate (.num quality) .empty) .empty) =
          some ({ r with options := o3 }, [.post w (.options o3)]) ∧
        o3.get Key.timeLimit = r.options.get Key.timeLimit := by
    intro r hr hn w hw
    obtain ⟨o3, he, -, hnone, -⟩ := Obj.extend_spec
      (.sub Key.mp3 (.prim Key.bitRate (.num quality) .empty) .empty) r.options hn
      (by simp [Obj.distinctKeys, Obj.get])
    exact ⟨o3, by simp [Recorder.setOptions, hr, he, hw],
      hnone Key.timeLimit (by simp [Obj.get, Key.mp3, Key.timeLimit])⟩
  have h1 : ((Recorder.constructed sampleRate w1).setEncoding format w2).1.isRecording = false ∧
      ((Recorder.constructed sampleRate w1).setEncoding format w2).1.options = CONFIGS_options ∧
      ∃ w, ((Recorder.constructed sampleRate w1).setEncoding format w2).1.worker = some w := by
    by_cases hf : CONFIGS_encoding = format
    · simp [Recorder.setEncoding, Recorder.constructed, hf, Recorder.isRecording]
    · simp [Recorder.setEncoding, Recorder.constructed, hf, Recorder.isRecording,
        Recorder.initWorker]
  obtain ⟨hi, ho, w, hw⟩ := h1
  have hn2 : (CONFIGS_options.set Key.timeLimit (.prim (.num ((t : ℚ) / 100)))).noNull = true :=
    Obj.noNull_set_prim _ _ _ noNull_defaults
  simp only [audioCapture, new_default]
  rw [hs _ hi ho w hw]
  dsimp only
  by_cases hmp3 : format = "mp3"
  · subst hmp3
    obtain ⟨o3, hset, hget⟩ := hm
      { ((Recorder.constructed sampleRate w1).setEncoding "mp3" w2).1 with
        options := CONFIGS_options.set Key.timeLimit (.prim (.num ((t : ℚ) / 100))) }
      hi hn2 w hw
    rw [if_pos rfl, hset]
    dsimp only
    simp only [Recorder.startRecording, Recorder.isRecording] at hi ⊢
    simp [hi, hw, hget, get_timeLimit_set]
  · simp only [hmp3, if_false]
    simp only [Recorder.startRecording, Recorder.isRecording] at hi ⊢
    simp [hi, hw, get_timeLimit_set]

/-- C7 at the ceiling: with the capped time 1,200,000 ms, `audioCapture` sets the
Recorder's `timeLimit` to 12000, which is not 1,200,000 / 1000 = 1200 seconds. -/
theorem audioCapture_timeLimit_at_ceiling :
    ∃ c es, audioCapture 1200000 false "mp3" 192 48000 1 2 4096 0 = some (c, es) ∧
      c.mediaRecorder.options.get Key.timeLimit = some (.prim (.num 12000)) ∧
      c.mediaRecorder.options.get Key.timeLimit ≠ some (.prim (.num (1200000 / 1000))) := by
  obtain ⟨c, es, h, hget⟩ := audioCapture_timeLimit 1200000 false "mp3" 192 48000 1 2 4096 0
  have h100 : (((1200000 : Int) : ℚ) / 100) = 12000 := by norm_num
  rw [h100] at hget
  refine ⟨c, es, h, hget, ?_⟩
  rw [hget]
  intro hcontra
  simp only [Option.some.injEq, Val.prim.injEq, Prim.num.injEq] at hcontra
  norm_num at hcontra

/-- Once the Recorder of a capture is idle, as it is after a completed stop, `stopCapture`
with the start tab still active runs the whole stop sequence again; only
`finishRecording` has nothing left to do. -/
theorem stopCapture_after_stop (c : Capture) (store : Storage) (e : Nat)
    (hs : c.startTabId = some e) (hidle : c.mediaRecorder.isRecording = false) :
    stopCapture c store e =
      some ({ c with timeoutArmed := false }, removeItem store e,
            [.tabsCreate "complete.html", .audioCtxClose, .trackStop, .captureStopped e]) := by
  simp [stopCapture, hs, Recorder.finishRecording, hidle]

/-- C10 at a running capture on tab 7: the first `stopCapture` finishes the Recorder and
runs the stop sequence; a second `stopCapture` with tab 7 still active, from the
keyboard command as well, runs the stop sequence again: a second results page, the
audio context closed again, the track stopped again, `captureStopped` broadcast
again. -/
theorem stopCapture_second_run_repeats :
    stopCapture sampleCapture [(7, 1000)] 7 =
      some ({ sampleCapture with
                mediaRecorder := { recordingRecorder with processor := none }
                timeoutArmed := false },
            [],
            [.recorder .inputDisconnect, .recorder .processorDisconnect,
             .recorder (.post 1 .finish),
             .tabsCreate "complete.html", .audioCtxClose, .trackStop, .captureStopped 7]) ∧
    stopCapture { sampleCapture with
                    mediaRecorder := { recordingRecorder with processor := none }
                    timeoutArmed := false } [] 7 =
      some ({ sampleCapture with
                mediaRecorder := { recordingRecorder with processor := none }
                timeoutArmed := false },
            [],
            [.tabsCreate "complete.html", .audioCtxClose, .trackStop, .captureStopped 7]) ∧
    onTrigger { sampleCapture with
                  mediaRecorder := { recordingRecorder with processor := none }
                  timeoutArmed := false } [] (.command "stop") 7 =
      some ({ sampleCapture with
                mediaRecorder := { recordingRecorder with processor := none }
                timeoutArmed := false },
            [],
            [.tabsCreate "complete.html", .audioCtxClose, .trackStop, .captureStopped 7]) := by
  refine ⟨by decide, by decide, by decide⟩

/-! ## Witnesses: the theorems at concrete inputs -/

/-- C1 at `new Recorder(source)` without configs, with two audio blocks. -/
theorem scenario1_message_trace_witness :
    ∃ r effs,
      scenario1 48000 ⟨none, none, none, none⟩ 1 4096 0
        [fun ch => [(ch : ℚ), 1], fun ch => [(ch : ℚ), 2]] = some (r, effs) ∧
      Recorder.initialOptions none = some r.options ∧
      posts effs =
        (1, Command.init 48000 2 r.options) :: (1, Command.start 4096) ::
          (([fun ch => [(ch : ℚ), 1], fun ch => [(ch : ℚ), 2]] :
              List (Nat → ChannelData)).map
            (fun b => (1, Command.record [b 0, b 1])) ++ [(1, Command.finish)]) ∧
      r.isRecording = false ∧
      completions effs = [] ∧
      ∀ blob, r.onmessage (.complete blob) = [.onComplete blob] :=
  scenario1_message_trace 48000 ⟨none, none, none, none⟩ 1 4096 0
    [fun ch => [(ch : ℚ), 1], fun ch => [(ch : ℚ), 2]] rfl rfl

/-- C2 at the recording Recorder and the sample worker. -/
theorem cancel_never_completes_witness :
    (∃ r1 es, recordingRecorder.cancelRecording = some (r1, es) ∧
        r1 = { recordingRecorder with processor := none } ∧
        posts es = [(1, Command.cancel)] ∧
        r1.isRecording = false ∧
        completions es = [] ∧
        completions (replies (sampleWorker [82, 73, 70, 70]) r1 es) = []) ∧
    (∀ (r0 : Recorder) (e : Event) (b : Blob),
        Effect.onComplete b ∈ r0.onmessage e ↔ e = Event.complete b) ∧
    (∃ r1 es, recordingRecorder.finishRecording = some (r1, es) ∧
        r1 = { recordingRecorder with processor := none } ∧
        posts es = [(1, Command.finish)] ∧
        r1.isRecording = false ∧
        completions es = [] ∧
        completions (replies (sampleWorker [82, 73, 70, 70]) r1 es) = [[82, 73, 70, 70]]) :=
  cancel_never_completes recordingRecorder ⟨4096, 2, 1⟩ 1 (sampleWorker [82, 73, 70, 70])
    [82, 73, 70, 70] rfl rfl
    (fun c b h => by cases c <;> simp [sampleWorker] at h ⊢) rfl

/-- C3 at the recording Recorder, and the double start at the constructed Recorder. -/
theorem recording_calls_are_noops_witness :
    recordingRecorder.isRecording = true ∧
    recordingRecorder.setEncoding "mp3" 9 = (recordingRecorder, []) ∧
    recordingRecorder.setOptions (.prim Key.timeLimit (.num 60) .empty)
      = some (recordingRecorder, []) ∧
    recordingRecorder.startRecording 4096 5 = some (recordingRecorder, []) ∧
    ∃ r1 e1, (Recorder.constructed 48000 1).startRecording 2048 3 = some (r1, e1) ∧
      r1.startRecording 4096 5 = some (r1, []) ∧
      taps (e1 ++ []) = 1 ∧
      posts (e1 ++ []) = [(1, Command.start 2048)] :=
  ⟨rfl,
   (recording_calls_are_noops recordingRecorder rfl "mp3"
      (.prim Key.timeLimit (.num 60) .empty) 9 4096 5).1,
   (recording_calls_are_noops recordingRecorder rfl "mp3"
      (.prim Key.timeLimit (.num 60) .empty) 9 4096 5).2.1,
   (recording_calls_are_noops recordingRecorder rfl "mp3"
      (.prim Key.timeLimit (.num 60) .empty) 9 4096 5).2.2.1,
   (recording_calls_are_noops recordingRecorder rfl "mp3"
      (.prim Key.timeLimit (.num 60) .empty) 9 4096 5).2.2.2
      (Recorder.constructed 48000 1) 1 2048 3 rfl rfl⟩

/-- C5 at the constructed Recorder: "wav" again is a no-op, "mp3" reinitialises the worker,
"mp3" a second time is a no-op. -/
theorem setEncoding_same_codec_witness :
    (Recorder.constructed 48000 1).setEncoding "wav" 3 = (Recorder.constructed 48000 1, []) ∧
    ((Recorder.constructed 48000 1).setEncoding "mp3" 2).1.setEncoding "mp3" 3 =
      (((Recorder.constructed 48000 1).setEncoding "mp3" 2).1, []) ∧
    (Recorder.constructed 48000 1).setEncoding "mp3" 2 =
        Recorder.initWorker { Recorder.constructed 48000 1 with encoding := "mp3" } 2 ∧
    ((Recorder.constructed 48000 1).setEncoding "mp3" 2).1 =
        { Recorder.constructed 48000 1 with encoding := "mp3", worker := some 2 } ∧
    ((Recorder.constructed 48000 1).setEncoding "mp3" 2).2 =
        [.terminate 1, .onEncoderLoading "mp3", .newWorker 2 "/workers/Mp3Worker.js",
         .post 2 (.init 48000 2 CONFIGS_options)] :=
  ⟨(setEncoding_same_codec (Recorder.constructed 48000 1) "wav" 2 3).1 rfl,
   (setEncoding_same_codec (Recorder.constructed 48000 1) "mp3" 2 3).2.1,
   (setEncoding_same_codec (Recorder.constructed 48000 1) "mp3" 2 3).2.2 rfl (by decide)⟩

/-- C6 at a preference of 600,000 ms on an allowed tab without a session. -/
theorem maxTime_capped_witness :
    capTime 600000 = min 600000 1200000 ∧
    capTime 600000 ≤ 1200000 ∧
    capTime 2000000 = 1200000 ∧
    capTime 600000 = 600000 ∧
    (∀ t mu f q, CEffect.audioCapture t mu f q ∈
        (startCapture [] ⟨7, "https://example.org/"⟩ 1000 1001 ⟨600000, false, "mp3", 192⟩).2 →
      t = min 600000 1200000) ∧
    startCapture [] ⟨7, "https://example.org/"⟩ 1000 1001 ⟨600000, false, "mp3", 192⟩ =
      (setItem [] 7 1000,
       [.captureStarted 7 1001, .audioCapture (min 600000 1200000) false "mp3" 192]) :=
  ⟨(maxTime_capped 600000 [] ⟨7, "https://example.org/"⟩ 1000 1001 false "mp3" 192).1,
   (maxTime_capped 600000 [] ⟨7, "https://example.org/"⟩ 1000 1001 false "mp3" 192).2.1,
   (maxTime_capped 600000 [] ⟨7, "https://example.org/"⟩ 1000 1001 false "mp3" 192).2.2.1,
   (maxTime_capped 600000 [] ⟨7, "https://example.org/"⟩ 1000 1001 false "mp3" 192).2.2.2.1
     (by decide),
   (maxTime_capped 600000 [] ⟨7, "https://example.org/"⟩ 1000 1001 false "mp3" 192).2.2.2.2.1,
   (maxTime_capped 600000 [] ⟨7, "https://example.org/"⟩ 1000 1001 false "mp3" 192).2.2.2.2.2
     (by decide) rfl⟩

/-- C8 at tab 7: a start, then a stop trigger that arrives while tab 8 is active, then a
second start for tab 7. -/
theorem one_session_per_tab_witness :
    startCapture
        (run (startCapture [] ⟨7, "https://example.org/"⟩ 1000 1001
                ⟨600000, false, "mp3", 192⟩).1
             [.stop sampleCapture 8])
        ⟨7, "https://example.org/other"⟩ 2000 2001 ⟨600000, false, "wav", 192⟩ =
      (run (startCapture [] ⟨7, "https://example.org/"⟩ 1000 1001
              ⟨600000, false, "mp3", 192⟩).1
           [.stop sampleCapture 8], []) ∧
    ((run [] [.start ⟨7, "https://example.org/"⟩ 1000 1001 ⟨600000, false, "mp3", 192⟩,
              .stop sampleCapture 8]).map Prod.fst).Nodup ∧
    ((getItem (run [] [.start ⟨7, "https://example.org/"⟩ 1000 1001
                          ⟨600000, false, "mp3", 192⟩,
                       .stop sampleCapture 8]) 7).isSome = true ↔
      ∃ pre s post,
        [Step.start ⟨7, "https://example.org/"⟩ 1000 1001 ⟨600000, false, "mp3", 192⟩,
         Step.stop sampleCapture 8] = pre ++ s :: post ∧
        Step.starts 7 s = true ∧ ∀ x ∈ post, Step.removes 7 x = false) :=
  ⟨(one_session_per_tab 7
      [.start ⟨7, "https://example.org/"⟩ 1000 1001 ⟨600000, false, "mp3", 192⟩,
       .stop sampleCapture 8]).1 [] ⟨7, "https://example.org/"⟩
      ⟨7, "https://example.org/other"⟩ 1000 1001 2000 2001 ⟨600000, false, "mp3", 192⟩
      ⟨600000, false, "wav", 192⟩ [.stop sampleCapture 8] rfl rfl (by decide) (by decide)
      (by decide),
   (one_session_per_tab 7
      [.start ⟨7, "https://example.org/"⟩ 1000 1001 ⟨600000, false, "mp3", 192⟩,
       .stop sampleCapture 8]).2.1,
   (one_session_per_tab 7
      [.start ⟨7, "https://example.org/"⟩ 1000 1001 ⟨600000, false, "mp3", 192⟩,
       .stop sampleCapture 8]).2.2⟩

/-- C9 at the capture running on tab 7, with the stop command arriving while tab 8 is
active. -/
theorem stop_from_other_tab_ignored_witness :
    sampleCapture.startTabId = some 7 ∧ (8 : Nat) ≠ 7 ∧
    stopCapture sampleCapture [(7, 1000)] 8 = some (sampleCapture, [(7, 1000)], []) ∧
    onTrigger sampleCapture [(7, 1000)] (.command "stop") 8 =
      some (sampleCapture, [(7, 1000)], []) :=
  ⟨rfl, by decide,
   stop_from_other_tab_ignored sampleCapture [(7, 1000)] (.command "stop") 7 8 rfl
     (by decide)⟩

end Capturer
